import Mathlib

/-!
Verification of the CFHT minor-planet tracking scheduler.

The development shallowly embeds the core of the repository:

* the Instrument Configuration Selector (`exposure_time_index` /
  `exposure_time` in `ph2.py` and `create_cfht_observations.py`),
* the Visibility Window Calculator (the rise/set interval reconciliation
  and minimum-up-time filter of `parse_recon_table` in `recon_parser.py`),
* the Observing-Group Scheduler (the greedy pass/anchor loop and the
  repeat-copy persistence of `ph2.py` `__main__` and
  `CfhtUpload.execute` in `create_cfht_observations.py`).

Conventions used by the embedding:

* Times are rationals measured in hours, so the one-hour minimum up-time
  threshold of `MINIMUM_UP_TIME` is the literal `1`.
* Magnitudes are real numbers; the transcendental flux scaling
  `300.0 / ((10 ** ((24.5 - mag) / 2.5)) ** 2)` is embedded as a
  functional relation between the magnitude and the resulting value
  (powers of `10` at rational exponents are irrational, so the map is
  written as a `Prop`-valued graph rather than a computable function).
* Python exceptions are embedded as `Except Unit`: a raised, uncaught
  exception is `Except.error ()`.
* The astropy spherical separation is abstracted to a parameter
  `sep : α → α → ℚ` of the scheduler; for targets on the celestial
  equator it is instantiated with the right-ascension distance `raSep`.
-/

namespace CfhtMp

/-! ## Instrument Configuration Selector

Source (`ph2.py` lines 14-33, identically `create_cfht_observations.py`
lines 20-40):

`IC_exptimes = [40, 80, 120, 160, 200, 240, 300, 340, 380, 420, 440, 480, 500]`

`exact_exptime = min(499, max(40, 300.0 / ((10 ** ((24.5 - mag) / 2.5)) ** 2)))`

`return len(cuts) - (exact_exptime < cuts).sum()`
-/

/-- The exposure-time buckets `IC_exptimes` configured in PH2. -/
def IC_exptimes : List ℕ := [40, 80, 120, 160, 200, 240, 300, 340, 380, 420, 440, 480, 500]

/-- The ideal (pre-clamp) exposure time of a magnitude-`mag` source:
`300.0 / ((10 ** ((24.5 - mag) / 2.5)) ** 2)`, as a functional relation. -/
def ideal_exptime (mag e : ℝ) : Prop :=
  e = 300 / ((10 : ℝ) ^ ((24.5 - mag) / 2.5)) ^ 2

/-- The clamped exposure time `exact_exptime`:
`min(499, max(40, ideal))`. -/
def exact_exptime (mag e : ℝ) : Prop :=
  ∃ i, ideal_exptime mag i ∧ e = min 499 (max 40 i)

/-- `exposure_time_index(mag)`: numpy counts the cut values strictly greater
than `exact_exptime` (`(exact_exptime < cuts).sum()`) and subtracts that
count from `len(cuts)`. -/
def exposure_time_index (mag : ℝ) (idx : ℕ) : Prop :=
  ∃ e, exact_exptime mag e ∧
    idx = IC_exptimes.length - (IC_exptimes.map fun (c : ℕ) => if e < (c : ℝ) then 1 else 0).sum

/-- `IC_exptimes[idx]`, the bucket value selected by an index. -/
def exposure_time_val (idx : ℕ) : ℕ := IC_exptimes.getD idx 0

/-- `exposure_time(mag) = IC_exptimes[exposure_time_index(mag)]`. -/
def exposure_time (mag : ℝ) (v : ℕ) : Prop :=
  ∃ idx, exposure_time_index mag idx ∧ v = exposure_time_val idx

/-! Helper lemmas about the indicator count. -/

lemma indicator_sum_le_length (e : ℝ) (l : List ℕ) :
    (l.map fun (c : ℕ) => if e < (c : ℝ) then 1 else 0).sum ≤ l.length := by
  induction l with
  | nil => simp
  | cons c l ih =>
    simp only [List.map_cons, List.sum_cons, List.length_cons]
    split
    · omega
    · omega

lemma indicator_sum_pos (e : ℝ) (l : List ℕ) (c : ℕ) (hc : c ∈ l) (h : e < c) :
    1 ≤ (l.map fun (c : ℕ) => if e < (c : ℝ) then 1 else 0).sum := by
  induction l with
  | nil => simp at hc
  | cons a l ih =>
    simp only [List.map_cons, List.sum_cons]
    rcases List.mem_cons.mp hc with h1 | h1
    · subst h1
      rw [if_pos h]
      omega
    · have := ih h1
      omega

lemma indicator_sum_lt_length (e : ℝ) (l : List ℕ) (c : ℕ) (hc : c ∈ l) (h : ¬ e < c) :
    (l.map fun (c : ℕ) => if e < (c : ℝ) then 1 else 0).sum + 1 ≤ l.length := by
  induction l with
  | nil => simp at hc
  | cons a l ih =>
    simp only [List.map_cons, List.sum_cons, List.length_cons]
    rcases List.mem_cons.mp hc with h1 | h1
    · subst h1
      rw [if_neg h]
      have := indicator_sum_le_length e l
      omega
    · have := ih h1
      split
      · omega
      · omega

lemma indicator_sum_anti (e₁ e₂ : ℝ) (h : e₁ ≤ e₂) (l : List ℕ) :
    (l.map fun (c : ℕ) => if e₂ < (c : ℝ) then 1 else 0).sum ≤
      (l.map fun (c : ℕ) => if e₁ < (c : ℝ) then 1 else 0).sum := by
  induction l with
  | nil => simp
  | cons a l ih =>
    simp only [List.map_cons, List.sum_cons]
    have : (if e₂ < (a : ℝ) then 1 else 0) ≤ (if e₁ < (a : ℝ) then 1 else 0) := by
      split
      · rw [if_pos (lt_of_le_of_lt h (by assumption))]
      · omega
    omega

/-- The clamped exposure time always lies in `[40, 499]`. -/
lemma exact_exptime_bounds (mag e : ℝ) (h : exact_exptime mag e) :
    40 ≤ e ∧ e ≤ 499 := by
  obtain ⟨i, _, rfl⟩ := h
  constructor
  · have h40 : (40 : ℝ) ≤ max 40 i := le_max_left _ _
    have : (40 : ℝ) ≤ 499 := by norm_num
    exact le_min this h40
  · exact min_le_left _ _

/-- The selected index is always between 1 and 12. -/
lemma exposure_time_index_bounds (mag : ℝ) (idx : ℕ)
    (h : exposure_time_index mag idx) : 1 ≤ idx ∧ idx ≤ 12 := by
  obtain ⟨e, he, rfl⟩ := h
  obtain ⟨h40, h499⟩ := exact_exptime_bounds mag e he
  have hmem500 : (500 : ℕ) ∈ IC_exptimes := by simp [IC_exptimes]
  have hmem40 : (40 : ℕ) ∈ IC_exptimes := by simp [IC_exptimes]
  have hlt : e < (500 : ℕ) := by push_cast; linarith
  have hge : ¬ e < (40 : ℕ) := by push_cast; linarith
  have h1 := indicator_sum_pos e IC_exptimes 500 hmem500 hlt
  have h2 := indicator_sum_lt_length e IC_exptimes 40 hmem40 hge
  have hlen : IC_exptimes.length = 13 := by simp [IC_exptimes]
  omega

/-- `exposure_time_index` is a functional relation: the index is unique. -/
lemma exposure_time_index_unique (mag : ℝ) (i j : ℕ)
    (hi : exposure_time_index mag i) (hj : exposure_time_index mag j) : i = j := by
  obtain ⟨e, ⟨x, hx, hxe⟩, rfl⟩ := hi
  obtain ⟨f, ⟨y, hy, hyf⟩, rfl⟩ := hj
  rw [ideal_exptime] at hx hy
  subst hx hxe
  rw [hy] at hyf
  subst hyf
  rfl

/-! Concrete selector evaluations. -/

lemma indicator_sum_at_300 :
    (IC_exptimes.map fun (c : ℕ) => if (300 : ℝ) < (c : ℝ) then 1 else 0).sum = 6 := by
  norm_num [IC_exptimes]

lemma indicator_sum_at_40 :
    (IC_exptimes.map fun (c : ℕ) => if (40 : ℝ) < (c : ℝ) then 1 else 0).sum = 12 := by
  norm_num [IC_exptimes]

lemma indicator_sum_at_499 :
    (IC_exptimes.map fun (c : ℕ) => if (499 : ℝ) < (c : ℝ) then 1 else 0).sum = 1 := by
  norm_num [IC_exptimes]

lemma ideal_exptime_24p5 : ideal_exptime 24.5 300 := by
  rw [ideal_exptime, show ((24.5 : ℝ) - 24.5) / 2.5 = 0 by norm_num, Real.rpow_zero]
  norm_num

lemma exact_exptime_24p5 : exact_exptime 24.5 300 := by
  refine ⟨300, ideal_exptime_24p5, ?_⟩
  rw [max_eq_right (by norm_num), min_eq_right (by norm_num)]

lemma exposure_time_index_24p5 : exposure_time_index 24.5 7 := by
  refine ⟨300, exact_exptime_24p5, ?_⟩
  rw [indicator_sum_at_300]
  rfl

lemma ideal_exptime_22 : ideal_exptime 22 3 := by
  rw [ideal_exptime, show ((24.5 : ℝ) - 22) / 2.5 = 1 by norm_num, Real.rpow_one]
  norm_num

lemma exact_exptime_22 : exact_exptime 22 40 := by
  refine ⟨3, ideal_exptime_22, ?_⟩
  rw [max_eq_left (by norm_num), min_eq_right (by norm_num)]

lemma exposure_time_index_22 : exposure_time_index 22 1 := by
  refine ⟨40, exact_exptime_22, ?_⟩
  rw [indicator_sum_at_40]
  rfl

lemma ideal_exptime_27 : ideal_exptime 27 30000 := by
  rw [ideal_exptime, show ((24.5 : ℝ) - 27) / 2.5 = -1 by norm_num, Real.rpow_neg_one]
  norm_num

lemma exact_exptime_27 : exact_exptime 27 499 := by
  refine ⟨30000, ideal_exptime_27, ?_⟩
  rw [max_eq_right (by norm_num), min_eq_left (by norm_num)]

lemma exposure_time_index_27 : exposure_time_index 27 12 := by
  refine ⟨499, exact_exptime_27, ?_⟩
  rw [indicator_sum_at_499]
  rfl

/-- The ideal exposure of a magnitude-26 source is at least 499 seconds. -/
lemma ideal_exptime_26_ge :
    ∀ i : ℝ, ideal_exptime 26 i → 499 ≤ i := by
  intro i hi
  rw [ideal_exptime] at hi
  have hexp : ((24.5 : ℝ) - 26) / 2.5 = -0.6 := by norm_num
  rw [hexp] at hi
  have hb : (0 : ℝ) < (10 : ℝ) ^ (-0.6 : ℝ) := Real.rpow_pos_of_pos (by norm_num) _
  have hsq : ((10 : ℝ) ^ (-0.6 : ℝ)) ^ 2 = (10 : ℝ) ^ (-1.2 : ℝ) := by
    rw [← Real.rpow_natCast ((10 : ℝ) ^ (-0.6 : ℝ)) 2, ← Real.rpow_mul (by norm_num)]
    norm_num
  have hle : (10 : ℝ) ^ (-1.2 : ℝ) ≤ (10 : ℝ) ^ (-1 : ℝ) := by
    apply Real.rpow_le_rpow_left_iff (by norm_num : (1 : ℝ) < 10) |>.mpr
    norm_num
  have hinv : (10 : ℝ) ^ (-1 : ℝ) = 1 / 10 := by
    rw [Real.rpow_neg_one]
    norm_num
  have hpos : (0 : ℝ) < ((10 : ℝ) ^ (-0.6 : ℝ)) ^ 2 := by positivity
  have h10 : ((10 : ℝ) ^ (-0.6 : ℝ)) ^ 2 ≤ 1 / 10 := by
    rw [hsq]
    rw [hinv] at hle
    exact hle
  have h3000 : (3000 : ℝ) ≤ 300 / ((10 : ℝ) ^ (-0.6 : ℝ)) ^ 2 := by
    have := div_le_div_of_nonneg_left (by norm_num : (0 : ℝ) ≤ 300) hpos h10
    calc (3000 : ℝ) = 300 / (1 / 10) := by norm_num
    _ ≤ 300 / ((10 : ℝ) ^ (-0.6 : ℝ)) ^ 2 := this
  rw [hi]
  linarith

lemma exact_exptime_26 : exact_exptime 26 499 := by
  refine ⟨300 / ((10 : ℝ) ^ ((24.5 - 26) / 2.5)) ^ 2, rfl, ?_⟩
  have h := ideal_exptime_26_ge _ rfl
  rw [max_eq_right (by linarith), min_eq_left (by linarith)]

lemma exposure_time_index_26 : exposure_time_index 26 12 := by
  refine ⟨499, exact_exptime_26, ?_⟩
  rw [indicator_sum_at_499]
  rfl

lemma exposure_time_26 : exposure_time 26 500 :=
  ⟨12, exposure_time_index_26, rfl⟩

lemma exposure_time_22 : exposure_time 22 80 :=
  ⟨1, exposure_time_index_22, rfl⟩

lemma exposure_time_24p5 : exposure_time 24.5 340 :=
  ⟨7, exposure_time_index_24p5, rfl⟩

/-! ## Visibility Window Calculator

Source: `recon_parser.py` lines 254-316 (`parse_recon_table`).  For each
table row the script queries the Horizons ephemeris service (no exception
handler around the lookup), computes the target's rise/set times at the
40-degree horizon, reconciles them with the night's darkness interval
`[sun_set_time, sun_rise_time]`, and keeps the target when the overlap
lasts at least `MINIMUM_UP_TIME = 1` hour.  Times are rationals in hours.
-/

/-- The result of one Horizons ephemeris lookup plus the pyephem rise/set
computation for the target (`o.predict`, `target.compute(cfht)`). -/
structure EphResult where
  ra : ℚ
  dec : ℚ
  mag : ℚ
  riseTime : ℚ
  setTime : ℚ
deriving DecidableEq, Repr

/-- A target accepted by the visibility filter (`good_targets.append(target)`
stores the ephem body, i.e. the looked-up data). -/
structure VisTarget where
  eph : EphResult
deriving DecidableEq, Repr

/-- The rise/set reconciliation branch chain of `parse_recon_table`
(lines 279-300).  `none` models the fall-through in which neither branch
assigns `start`/`end` (both stay `None`). -/
def riseSetWindow (sunSet sunRise targetRise targetSet : ℚ) : Option (ℚ × ℚ) :=
  if sunRise < targetRise then
    -- target rises after sun_rise but target_set after sun_set
    if sunSet < targetSet then
      some (sunSet, if targetSet < sunRise then targetSet else sunRise)
    else
      none
  else if targetRise < sunSet then
    some (sunSet, if targetSet < sunRise then targetSet else sunRise)
  else if sunSet < targetRise ∧ targetRise < sunRise then
    some (targetRise, if targetSet < sunRise then targetSet else sunRise)
  else
    none

/-- Processing of one row after a successful lookup: reconcile the window,
then apply the `duration < MINIMUM_UP_TIME` filter.  When the branch chain
leaves `start = end = None`, the Python expression `(end - start)` raises a
`TypeError`, modelled as `Except.error ()`.  `Except.ok none` is the
logged-and-skipped "only up for ... hours" outcome; `Except.ok (some t)`
is an accepted target. -/
def processRow (sunSet sunRise : ℚ) (eph : EphResult) : Except Unit (Option VisTarget) :=
  match riseSetWindow sunSet sunRise eph.riseTime eph.setTime with
  | none => Except.error ()
  | some (s, e) =>
    if e - s < 1 then Except.ok none
    else Except.ok (some ⟨eph⟩)

/-- The per-row loop of `parse_recon_table`: each row's ephemeris lookup
(`horizons.Body` / `o.predict`) may fail; the source has no handler around
it, so a raised exception propagates and the whole call aborts. -/
def parse_recon_table (lookup : ℕ → Except Unit EphResult) (sunSet sunRise : ℚ) :
    List ℕ → Except Unit (List VisTarget)
  | [] => Except.ok []
  | row :: rows =>
    match lookup row with
    | Except.error e => Except.error e
    | Except.ok eph =>
      match processRow sunSet sunRise eph with
      | Except.error e => Except.error e
      | Except.ok none => parse_recon_table lookup sunSet sunRise rows
      | Except.ok (some t) =>
        match parse_recon_table lookup sunSet sunRise rows with
        | Except.error e => Except.error e
        | Except.ok ts => Except.ok (t :: ts)

/-! ## Observing-Group Scheduler

Source: `ph2.py` `__main__` lines 139-178 (the same pass structure appears
in `CfhtUpload.execute`, `create_cfht_observations.py` lines 93-134).
Targets carry an abstract coordinate; the astropy spherical separation is a
parameter `sep`.  Each target's exposure seconds are precomputed with the
Instrument Configuration Selector (`exposure_time(mags[ob_token])`).
-/

/-- A visibility-confirmed target as seen by the scheduler: its observing
block token, its (first ephemeris point) coordinate and its selected
exposure seconds. -/
structure SchedTarget (α : Type) where
  token : ℕ
  coord : α
  exptime : ℕ
deriving DecidableEq, Repr

/-- An observing group: its 1-based index, its member targets in insertion
order, and its accumulated `og_itime`. -/
structure OG (α : Type) where
  ogIdx : ℕ
  members : List (SchedTarget α)
  itime : ℕ
deriving DecidableEq, Repr

/-- The inner scan of one scheduling pass (`for ob_token in order_tokens`,
`ph2.py` lines 154-167).  Skips scheduled targets, adopts the first
unscheduled target's coordinate as the group anchor, skips targets more
than 10 degrees from the anchor, and otherwise adds the target, marks it
scheduled and accumulates `exposure_time + 40`.  After an accept, the
source's `if og_itime > 3000.0: break` and the unconditional `break` that
follows it both leave the scan with the same state, so the accept case
returns directly. -/
def passLoop {α : Type} (sep : α → α → ℚ) :
    List (SchedTarget α) → List ℕ → Option α → List (SchedTarget α) → ℕ →
    List (SchedTarget α) × List ℕ × ℕ
  | [], sched, _, members, itime => (members, sched, itime)
  | t :: rest, sched, ogCoord, members, itime =>
    if t.token ∈ sched then
      passLoop sep rest sched ogCoord members itime
    else
      let c := ogCoord.getD t.coord
      if sep t.coord c > 10 then
        passLoop sep rest sched (some c) members itime
      else
        (members ++ [t], t.token :: sched, itime + t.exptime + 40)

/-- The outer `while len(scheduled) < len(ob_tokens)` loop (`ph2.py` lines
146-171), driven by a fuel argument: each iteration starts a fresh group
(anchor unset, empty members, zero duration), runs one pass, and emits the
group with the incremented `og_idx`. -/
def scheduleLoop {α : Type} (sep : α → α → ℚ) (ts : List (SchedTarget α)) :
    ℕ → List ℕ → ℕ → List (OG α)
  | 0, _, _ => []
  | fuel + 1, sched, ogIdx =>
    if sched.length < ts.length then
      let r := passLoop sep ts sched none [] 0
      ⟨ogIdx + 1, r.1, r.2.2⟩ :: scheduleLoop sep ts fuel r.2.1 (ogIdx + 1)
    else []

/-- Run the scheduler on an RA-ordered target list (`og_idx` starts at 0;
`ts.length` passes always suffice, as proved below). -/
def runScheduler {α : Type} (sep : α → α → ℚ) (ts : List (SchedTarget α)) : List (OG α) :=
  scheduleLoop sep ts ts.length [] 0

/-- The persistence step (`ph2.py` lines 169-178): each closed group is
emitted once with token suffix 0 (`OG_{runid}_{qrunid}_{og_idx}_{0}`) and
then `nrepeats = 2` further copies with suffixes 1 and 2; a token is
modelled as the pair (group index, copy suffix), the run identifiers being
fixed for the whole run. -/
def persistedOGs {α : Type} (sep : α → α → ℚ) (ts : List (SchedTarget α)) :
    List ((ℕ × ℕ) × List (SchedTarget α)) :=
  (runScheduler sep ts).flatMap fun g =>
    ((g.ogIdx, 0), g.members) :: (List.range 2).map fun r => ((g.ogIdx, r + 1), g.members)

/-- The separation of two right ascensions (degrees) for targets on the
celestial equator: the astropy spherical separation reduces to the RA
distance along the great circle. -/
def raSep (a b : ℚ) : ℚ := min |a - b| (360 - |a - b|)

/-! Closed-form behaviour of the scheduling pass: because the inner scan
breaks unconditionally after its first accept, and the anchor is the first
unscheduled target (which is at separation 0 from itself), each pass
schedules exactly the first unscheduled target in list order. -/

lemma passLoop_first {α : Type} (sep : α → α → ℚ) (hsep : ∀ c, sep c c = 0) :
    ∀ (pre : List (SchedTarget α)) (t : SchedTarget α) (rest : List (SchedTarget α))
      (sched : List ℕ),
      (∀ p ∈ pre, p.token ∈ sched) → t.token ∉ sched →
      passLoop sep (pre ++ t :: rest) sched none [] 0 =
        ([t], t.token :: sched, t.exptime + 40) := by
  intro pre
  induction pre with
  | nil =>
    intro t rest sched _ hnot
    simp only [List.nil_append, passLoop, if_neg hnot]
    rw [Option.getD_none, hsep t.coord, if_neg (by norm_num)]
    simp
  | cons p pre ih =>
    intro t rest sched hpre hnot
    have hp : p.token ∈ sched := hpre p (List.mem_cons_self p pre)
    simp only [List.cons_append, passLoop, if_pos hp]
    exact ih t rest sched (fun q hq => hpre q (List.mem_cons_of_mem p hq)) hnot

lemma scheduleLoop_closed {α : Type} (sep : α → α → ℚ) (hsep : ∀ c, sep c c = 0)
    (ts : List (SchedTarget α)) (htok : (ts.map SchedTarget.token).Nodup) :
    ∀ (fuel k : ℕ) (sched : List ℕ) (ogIdx : ℕ),
      k ≤ ts.length → ts.length - k ≤ fuel → sched.length = k →
      (∀ x, x ∈ sched ↔ x ∈ (ts.take k).map SchedTarget.token) →
      scheduleLoop sep ts fuel sched ogIdx =
        ((ts.drop k).enumFrom ogIdx).map fun p => ⟨p.1 + 1, [p.2], p.2.exptime + 40⟩ := by
  intro fuel
  induction fuel with
  | zero =>
    intro k sched ogIdx hk hfuel _ _
    have : k = ts.length := by omega
    subst this
    simp [scheduleLoop, List.drop_length]
  | succ fuel ih =>
    intro k sched ogIdx hk hfuel hlen hmem
    by_cases hlt : k < ts.length
    · have hdrop : ts.drop k = ts[k] :: ts.drop (k + 1) := List.drop_eq_getElem_cons hlt
      have happ : ts.take k ++ ts[k] :: ts.drop (k + 1) = ts := by
        rw [← hdrop, List.take_append_drop]
      have hpre : ∀ p ∈ ts.take k, p.token ∈ sched := by
        intro p hp
        exact (hmem p.token).mpr (List.mem_map_of_mem SchedTarget.token hp)
      have hsplit : (ts.map SchedTarget.token) =
          ((ts.take k).map SchedTarget.token) ++ ((ts.drop k).map SchedTarget.token) := by
        rw [← List.map_append, List.take_append_drop]
      have hdisj : ∀ x, x ∈ (ts.take k).map SchedTarget.token →
          x ∈ (ts.drop k).map SchedTarget.token → False := by
        rw [hsplit] at htok
        intro x h1 h2
        exact (List.disjoint_of_nodup_append htok) h1 h2
      have hnot : ts[k].token ∉ sched := by
        intro hx
        refine hdisj ts[k].token ((hmem _).mp hx) ?_
        rw [hdrop]
        exact List.mem_map_of_mem SchedTarget.token (List.mem_cons_self _ _)
      have hpass : passLoop sep ts sched none [] 0 =
          ([ts[k]], ts[k].token :: sched, ts[k].exptime + 40) := by
        conv_lhs => rw [← happ]
        exact passLoop_first sep hsep (ts.take k) ts[k] (ts.drop (k + 1)) sched hpre hnot
      have hcond : sched.length < ts.length := by omega
      simp only [scheduleLoop, if_pos hcond, hpass]
      have hmem2 : ∀ x, x ∈ ts[k].token :: sched ↔
          x ∈ (ts.take (k + 1)).map SchedTarget.token := by
        intro x
        have htake : ts.take (k + 1) = ts.take k ++ [ts[k]] := by
          rw [← List.take_concat_get ts k hlt]
          simp
        rw [htake, List.map_append, List.mem_append]
        simp only [List.mem_cons, List.map_cons, List.map_nil, List.mem_singleton]
        rw [hmem x]
        tauto
      have hrec := ih (k + 1) (ts[k].token :: sched) (ogIdx + 1)
        (by omega) (by omega) (by simp [hlen]) hmem2
      rw [hrec, hdrop, List.enumFrom_cons]
      simp
    · have : k = ts.length := by omega
      subst this
      have hcond : ¬ sched.length < ts.length := by omega
      simp [scheduleLoop, if_neg hcond, List.drop_length]

/-- The scheduler output in closed form: one singleton group per target,
in list order, with 1-based monotonically increasing group indices. -/
lemma runScheduler_closed {α : Type} (sep : α → α → ℚ) (hsep : ∀ c, sep c c = 0)
    (ts : List (SchedTarget α)) (htok : (ts.map SchedTarget.token).Nodup) :
    runScheduler sep ts =
      (ts.enumFrom 0).map fun p => ⟨p.1 + 1, [p.2], p.2.exptime + 40⟩ := by
  have := scheduleLoop_closed sep hsep ts htok ts.length 0 [] 0
    (by omega) (by omega) rfl (by simp)
  simpa [runScheduler] using this

/-! ## The end-to-end three-target scenario

Targets at right ascensions 10, 12 and 200 degrees (on the celestial
equator) with magnitudes 22.0, 24.5 and 26.0; their exposure seconds are
the selector outputs proved above: `exposure_time 22 80`,
`exposure_time 24.5 340` and `exposure_time 26 500`.  The list is already
ordered by right ascension, as the source sorts it before scheduling. -/

def target10 : SchedTarget ℚ := ⟨1, 10, 80⟩

def target12 : SchedTarget ℚ := ⟨2, 12, 340⟩

def target200 : SchedTarget ℚ := ⟨3, 200, 500⟩

def scenarioTargets : List (SchedTarget ℚ) := [target10, target12, target200]

/-! ## Claim C1: the end-to-end three-target scenario -/

/-- C1 (counterexample).  In the three-target scenario no observing group
contains both close targets (RA 10 and RA 12): the inner scan's
unconditional break after its first accept puts every target in its own
group, so the claimed group holding both close targets does not exist. -/
theorem no_group_contains_both_close_targets :
    ¬ ∃ g ∈ runScheduler raSep scenarioTargets,
        target10 ∈ g.members ∧ target12 ∈ g.members := by
  rw [runScheduler_closed raSep (fun c => by simp [raSep]) scenarioTargets (by decide)]
  simp only [scenarioTargets, List.enumFrom, List.map_cons, List.map_nil]
  rintro ⟨g, hg, h10, h12⟩
  simp only [List.mem_cons, List.not_mem_nil, or_false] at hg
  rcases hg with rfl | rfl | rfl <;>
    simp only [List.mem_singleton] at h10 h12 <;>
    simp [target10, target12, target200, SchedTarget.mk.injEq] at h10 h12

/-- C1 (amended).  The scheduler emits three observing groups, one per
target in right-ascension order: the two close targets are scheduled in
two distinct singleton groups (indices 1 and 2) and the distant target in
a third (index 3); durations are the selector exposures plus the
40-second overhead. -/
theorem scenario_schedules_each_target_alone :
    runScheduler raSep scenarioTargets =
      [⟨1, [target10], 120⟩, ⟨2, [target12], 380⟩, ⟨3, [target200], 540⟩] := by
  rw [runScheduler_closed raSep (fun c => by simp [raSep]) scenarioTargets (by decide)]
  simp [scenarioTargets, List.enumFrom, target10, target12, target200]

/-! ## Claim C2: effect of an ephemeris lookup failure -/

/-- An ephemeris result whose window is accepted: rises before sunset
(hour -5 < 0) and sets at hour 8, within darkness `[0, 10]`. -/
def goodEph : EphResult := ⟨10, 0, 24, -5, 8⟩

/-- A lookup that fails for row 0 and succeeds for every other row. -/
def failingLookup : ℕ → Except Unit EphResult :=
  fun row => if row = 0 then Except.error () else Except.ok goodEph

/-- C2 (counterexample).  With rows `[0, 1]`, the lookup failure on row 0
aborts the whole batch: the call returns the propagated error, even though
row 1 alone would have produced an accepted target. -/
theorem lookup_failure_loses_rest_of_batch :
    parse_recon_table failingLookup 0 10 [0, 1] = Except.error () ∧
      parse_recon_table failingLookup 0 10 [1] = Except.ok [⟨goodEph⟩] := by
  constructor
  · simp [parse_recon_table, failingLookup]
  · simp only [parse_recon_table, failingLookup, if_neg (by norm_num : (1 : ℕ) ≠ 0)]
    simp [processRow, riseSetWindow, goodEph]
    norm_num

/-- C2 (amended).  If the Ephemeris Provider lookup fails for any target of
the batch, the failure propagates out of `parse_recon_table`: the whole
batch aborts with the error and no accepted targets are returned, instead
of skipping only the failing target. -/
theorem lookup_failure_aborts_batch
    (lookup : ℕ → Except Unit EphResult) (sunSet sunRise : ℚ) (rows : List ℕ)
    (h : ∃ r ∈ rows, lookup r = Except.error ()) :
    parse_recon_table lookup sunSet sunRise rows = Except.error () := by
  induction rows with
  | nil => simp at h
  | cons r rows ih =>
    obtain ⟨x, hx, hfail⟩ := h
    rcases List.mem_cons.mp hx with rfl | hx
    · simp [parse_recon_table, hfail]
    · rcases hl : lookup r with e | eph
      · cases e
        simp [parse_recon_table, hl]
      · rcases hp : processRow sunSet sunRise eph with e | o
        · cases e
          simp [parse_recon_table, hl, hp]
        · rcases o with _ | t
          · simp only [parse_recon_table, hl, hp]
            exact ih ⟨x, hx, hfail⟩
          · simp only [parse_recon_table, hl, hp]
            rw [ih ⟨x, hx, hfail⟩]

/-- C2 (witness). -/
theorem lookup_failure_aborts_batch_witness :
    parse_recon_table failingLookup 0 10 [0, 1] = Except.error () :=
  lookup_failure_aborts_batch failingLookup 0 10 [0, 1]
    ⟨0, by simp, by simp [failingLookup]⟩

/-! ## Claim C3: the unresolved rise/set ordering -/

/-- An ephemeris result in the "no valid window" ordering: the target
rises after sunrise (hour 11 > 10) and its set time is not after sunset
(hour -1 is not > 0). -/
def noWindowEph : EphResult := ⟨10, 0, 24, 11, -1⟩

/-- C3 (code evaluated at the failing input).  In the ordering where the
target rises after sunrise and sets not after sunset, no branch of the
chain assigns `start`/`end`; both stay `None` and the duration expression
`(end - start)` raises a `TypeError`, so the row produces an error and the
whole batch aborts — it is not treated as a quiet filtered-out outcome. -/
theorem no_window_ordering_raises :
    processRow 0 10 noWindowEph = Except.error () ∧
      parse_recon_table (fun _ => Except.ok noWindowEph) 0 10 [0] = Except.error () := by
  have hwin : riseSetWindow 0 10 noWindowEph.riseTime noWindowEph.setTime = none := by
    rw [noWindowEph, riseSetWindow]
    norm_num
  have hrow : processRow 0 10 noWindowEph = Except.error () := by
    rw [processRow, hwin]
  exact ⟨hrow, by simp [parse_recon_table, hrow]⟩

/-! ## Claim C4: selector boundary behaviour -/

/-- C4 (counterexample).  At magnitude 24.5 the clamped ideal exposure is
exactly 300 s, yet the selector returns the 340 s bucket, not the bucket
containing 300 s; and at the bright magnitude 22 (clamped ideal 40 s) it
returns 80 s, not the first bucket of 40 s: the count of buckets strictly
greater than the ideal, subtracted from the length, lands one bucket past
the one containing the ideal value. -/
theorem selector_at_boundary_not_300_bucket :
    exposure_time 24.5 340 ∧ (340 : ℕ) ≠ 300 ∧
      exposure_time 22 80 ∧ (80 : ℕ) ≠ 40 :=
  ⟨exposure_time_24p5, by norm_num, exposure_time_22, by norm_num⟩

/-- C4 (amended).  `selectExposure(24.5)` yields index 7, the 340 s bucket
(the smallest bucket strictly greater than the 300 s clamped ideal); every
sufficiently bright magnitude (ideal exposure at most 40 s, so clamped
ideal 40 s) yields index 1, the 80 s bucket — never the first bucket of
40 s; and every sufficiently faint magnitude (ideal exposure at least
499 s, so clamped ideal 499 s) yields the last index 12, the 500 s
bucket. -/
theorem selector_boundary_and_clamp_buckets :
    (∀ idx, exposure_time_index 24.5 idx → exposure_time_val idx = 340) ∧
    (∀ mag i idx, ideal_exptime mag i → i ≤ 40 →
      exposure_time_index mag idx → exposure_time_val idx = 80) ∧
    (∀ mag i idx, ideal_exptime mag i → 499 ≤ i →
      exposure_time_index mag idx → exposure_time_val idx = 500) := by
  refine ⟨?_, ?_, ?_⟩
  · intro idx h
    rw [exposure_time_index_unique 24.5 idx 7 h exposure_time_index_24p5]
    rfl
  · intro mag i idx hi h40 hidx
    obtain ⟨e, ⟨j, hj, hje⟩, rfl⟩ := hidx
    rw [ideal_exptime] at hi hj
    have hij : j = i := by rw [hi, hj]
    subst hij
    have he : e = 40 := by
      rw [hje, max_eq_left h40, min_eq_right (by norm_num)]
    subst he
    rw [indicator_sum_at_40]
    rfl
  · intro mag i idx hi h499 hidx
    obtain ⟨e, ⟨j, hj, hje⟩, rfl⟩ := hidx
    rw [ideal_exptime] at hi hj
    have hij : j = i := by rw [hi, hj]
    subst hij
    have he : e = 499 := by
      rw [hje, max_eq_right (by linarith), min_eq_left (by linarith)]
    subst he
    rw [indicator_sum_at_499]
    rfl

/-- C4 (witness): the amended claim applied at magnitudes 24.5 (index 7),
22 (ideal 3 ≤ 40, index 1) and 27 (ideal 30000 ≥ 499, index 12). -/
theorem selector_boundary_and_clamp_buckets_witness :
    exposure_time_val 7 = 340 ∧ exposure_time_val 1 = 80 ∧
      exposure_time_val 12 = 500 :=
  ⟨selector_boundary_and_clamp_buckets.1 7 exposure_time_index_24p5,
   selector_boundary_and_clamp_buckets.2.1 22 3 1 ideal_exptime_22 (by norm_num)
     exposure_time_index_22,
   selector_boundary_and_clamp_buckets.2.2 27 30000 12 ideal_exptime_27 (by norm_num)
     exposure_time_index_27⟩

/-! ## Claim C5: accepted windows lie within darkness -/

/-- Every window assigned by the reconciliation chain starts no earlier
than sunset and ends no later than sunrise. -/
lemma riseSetWindow_bounds (ss sr tr tse s e : ℚ)
    (h : riseSetWindow ss sr tr tse = some (s, e)) : ss ≤ s ∧ e ≤ sr := by
  rw [riseSetWindow] at h
  by_cases h1 : sr < tr
  · rw [if_pos h1] at h
    by_cases h2 : ss < tse
    · rw [if_pos h2] at h
      simp only [Option.some.injEq, Prod.mk.injEq] at h
      obtain ⟨rfl, rfl⟩ := h
      refine ⟨le_refl _, ?_⟩
      by_cases h3 : tse < sr
      · rw [if_pos h3]; exact le_of_lt h3
      · rw [if_neg h3]
    · rw [if_neg h2] at h
      exact Option.noConfusion h
  · rw [if_neg h1] at h
    by_cases h2 : tr < ss
    · rw [if_pos h2] at h
      simp only [Option.some.injEq, Prod.mk.injEq] at h
      obtain ⟨rfl, rfl⟩ := h
      refine ⟨le_refl _, ?_⟩
      by_cases h3 : tse < sr
      · rw [if_pos h3]; exact le_of_lt h3
      · rw [if_neg h3]
    · rw [if_neg h2] at h
      by_cases h4 : ss < tr ∧ tr < sr
      · rw [if_pos h4] at h
        simp only [Option.some.injEq, Prod.mk.injEq] at h
        obtain ⟨rfl, rfl⟩ := h
        refine ⟨le_of_lt h4.1, ?_⟩
        by_cases h3 : tse < sr
        · rw [if_pos h3]; exact le_of_lt h3
        · rw [if_neg h3]
      · rw [if_neg h4] at h
        exact Option.noConfusion h

/-- C5.  Whenever the rise/set reconciliation assigns a window `(s, e)`:
if its duration `e - s` is under one hour the row is rejected
(`Except.ok none`, the logged skip); otherwise the row is accepted and the
window satisfies `s ≤ e` and is contained in the darkness interval
`[sunSet, sunRise]` — in every branch of the reconciliation chain. -/
theorem accepted_window_within_darkness
    (sunSet sunRise : ℚ) (eph : EphResult) (s e : ℚ)
    (h : riseSetWindow sunSet sunRise eph.riseTime eph.setTime = some (s, e)) :
    (e - s < 1 → processRow sunSet sunRise eph = Except.ok none) ∧
    (¬ e - s < 1 →
      processRow sunSet sunRise eph = Except.ok (some ⟨eph⟩) ∧
        s ≤ e ∧ sunSet ≤ s ∧ e ≤ sunRise) := by
  have hp : processRow sunSet sunRise eph =
      if e - s < 1 then Except.ok none else Except.ok (some ⟨eph⟩) := by
    rw [processRow, h]
  obtain ⟨hss, hsr⟩ := riseSetWindow_bounds sunSet sunRise eph.riseTime eph.setTime s e h
  constructor
  · intro hd
    rw [hp, if_pos hd]
  · intro hd
    exact ⟨by rw [hp, if_neg hd], by linarith [not_lt.mp hd], hss, hsr⟩

/-- C5 (witness): an accepted window (rise -5 before sunset 0, set 8,
darkness `[0, 10]`; duration 8 h) and a rejected one (set 1/2, duration
half an hour). -/
theorem accepted_window_within_darkness_witness :
    (processRow 0 10 goodEph = Except.ok (some ⟨goodEph⟩) ∧
      (0 : ℚ) ≤ 8 ∧ (0 : ℚ) ≤ 0 ∧ (8 : ℚ) ≤ 10) ∧
    processRow 0 10 ⟨10, 0, 24, -5, 1/2⟩ = Except.ok none := by
  constructor
  · have h := accepted_window_within_darkness 0 10 goodEph 0 8
      (by rw [goodEph, riseSetWindow]; norm_num)
    exact (h.2 (by norm_num))
  · have h := accepted_window_within_darkness 0 10 ⟨10, 0, 24, -5, 1/2⟩ 0 (1/2)
      (by rw [riseSetWindow]; norm_num)
    exact h.1 (by norm_num)

/-! ## Claim C6: termination and exactly-once scheduling -/

lemma flatMap_singleton_members {α : Type} (l : List (ℕ × SchedTarget α)) :
    ((l.map fun p => OG.mk (p.1 + 1) [p.2] (p.2.exptime + 40)).flatMap OG.members) =
      l.map Prod.snd := by
  induction l with
  | nil => rfl
  | cons p l ih => simp only [List.map_cons, List.flatMap_cons, ih, List.singleton_append]

/-- C6.  For any finite list of visible targets with distinct tokens, the
scheduler terminates: the loop runs at most one pass per target (here
exactly `ts.length` groups are emitted, one per pass), every pass
schedules at least one target — the anchor admits itself at separation
zero — so no emitted group is empty, and every target's token is
scheduled into the emitted groups exactly once. -/
theorem scheduler_terminates_each_target_once
    (α : Type) (sep : α → α → ℚ) (hsep : ∀ c, sep c c = 0)
    (ts : List (SchedTarget α)) (htok : (ts.map SchedTarget.token).Nodup) :
    (runScheduler sep ts).length ≤ ts.length ∧
    (∀ g ∈ runScheduler sep ts, g.members ≠ []) ∧
    (∀ t ∈ ts,
      (((runScheduler sep ts).flatMap OG.members).map SchedTarget.token).count t.token = 1) := by
  rw [runScheduler_closed sep hsep ts htok]
  refine ⟨?_, ?_, ?_⟩
  · rw [List.length_map, List.enumFrom_length]
  · intro g hg
    obtain ⟨p, _, rfl⟩ := List.mem_map.mp hg
    simp
  · intro t ht
    rw [flatMap_singleton_members, List.enumFrom_map_snd]
    exact List.count_eq_one_of_mem htok (List.mem_map_of_mem SchedTarget.token ht)

/-- C6 (witness): the three-target scenario. -/
theorem scheduler_terminates_each_target_once_witness :
    (runScheduler raSep scenarioTargets).length ≤ scenarioTargets.length ∧
    (∀ g ∈ runScheduler raSep scenarioTargets, g.members ≠ []) ∧
    (∀ t ∈ scenarioTargets,
      (((runScheduler raSep scenarioTargets).flatMap OG.members).map
        SchedTarget.token).count t.token = 1) :=
  scheduler_terminates_each_target_once ℚ raSep (fun c => by simp [raSep])
    scenarioTargets (by decide)

/-! ## Claim C7: group members near the anchor, duration within budget -/

/-- C7.  Every emitted observing group's members are within 10 degrees of
the group's anchor (its first member), and — when every target's selected
exposure is at most the largest bucket of 500 s, as the selector
guarantees — the group's accumulated duration stays within the 3000 s
budget. -/
theorem group_members_within_radius_and_budget
    (α : Type) (sep : α → α → ℚ) (hsep : ∀ c, sep c c = 0)
    (ts : List (SchedTarget α)) (htok : (ts.map SchedTarget.token).Nodup)
    (hexp : ∀ t ∈ ts, t.exptime ≤ 500) :
    ∀ g ∈ runScheduler sep ts,
      (∀ t ∈ g.members, ∀ a, g.members.head? = some a → sep t.coord a.coord ≤ 10) ∧
      g.itime ≤ 3000 := by
  rw [runScheduler_closed sep hsep ts htok]
  intro g hg
  obtain ⟨p, hp, rfl⟩ := List.mem_map.mp hg
  constructor
  · intro t ht a ha
    simp only [List.mem_singleton] at ht
    simp only [List.head?_cons, Option.some.injEq] at ha
    subst ht
    subst ha
    rw [hsep]
    norm_num
  · have hmem : p.2 ∈ ts := by
      rw [← List.enumFrom_map_snd 0 ts]
      exact List.mem_map_of_mem Prod.snd hp
    have := hexp p.2 hmem
    simp only
    omega

/-- C7 (witness): in the three-target scenario, the first emitted group
(the singleton holding the RA-10 target with duration 120 s) satisfies
both invariants. -/
theorem group_members_within_radius_and_budget_witness :
    raSep target10.coord target10.coord ≤ 10 ∧ (120 : ℕ) ≤ 3000 := by
  have h := group_members_within_radius_and_budget ℚ raSep (fun c => by simp [raSep])
    scenarioTargets (by decide) (by decide)
  have hg := h ⟨1, [target10], 120⟩ (by
    rw [runScheduler_closed raSep (fun c => by simp [raSep]) scenarioTargets (by decide)]
    simp [scenarioTargets, List.enumFrom, target10])
  exact ⟨hg.1 target10 (by simp) target10 (by simp), hg.2⟩

/-! ## Claim C8: repeat copies and token uniqueness -/

lemma persistedOGs_eq {α : Type} (sep : α → α → ℚ) (ts : List (SchedTarget α)) :
    persistedOGs sep ts = (runScheduler sep ts).flatMap fun g =>
      [((g.ogIdx, 0), g.members), ((g.ogIdx, 1), g.members), ((g.ogIdx, 2), g.members)] :=
  rfl

lemma tokens_flatMap {α : Type} (l : List (OG α)) :
    ((l.flatMap fun g =>
        [((g.ogIdx, 0), g.members), ((g.ogIdx, 1), g.members), ((g.ogIdx, 2), g.members)]).map
      Prod.fst) =
      l.flatMap fun g => [(g.ogIdx, 0), (g.ogIdx, 1), (g.ogIdx, 2)] := by
  induction l with
  | nil => rfl
  | cons g l ih => simp only [List.flatMap_cons, List.map_append, ih, List.map_cons, List.map_nil]

lemma nodup_tokens_flatMap {α : Type} (l : List (OG α)) (hl : (l.map OG.ogIdx).Nodup) :
    (l.flatMap fun g => [(g.ogIdx, 0), (g.ogIdx, 1), (g.ogIdx, 2)]).Nodup := by
  induction l with
  | nil => simp
  | cons g l ih =>
    rw [List.flatMap_cons, List.nodup_append]
    simp only [List.map_cons, List.nodup_cons] at hl
    refine ⟨by simp, ih hl.2, ?_⟩
    intro x hx hx2
    obtain ⟨g', hg', hxg'⟩ := List.mem_flatMap.mp hx2
    have h1 : x.1 = g.ogIdx := by
      simp only [List.mem_cons, List.not_mem_nil, or_false] at hx
      rcases hx with rfl | rfl | rfl <;> rfl
    have h2 : x.1 = g'.ogIdx := by
      simp only [List.mem_cons, List.not_mem_nil, or_false] at hxg'
      rcases hxg' with rfl | rfl | rfl <;> rfl
    refine hl.1 ?_
    rw [h1.symm.trans h2]
    exact List.mem_map_of_mem OG.ogIdx hg'

lemma filter_tokens_flatMap {α : Type} (l : List (OG α)) (hl : (l.map OG.ogIdx).Nodup)
    (g : OG α) (hg : g ∈ l) :
    (((l.flatMap fun g' =>
        [((g'.ogIdx, 0), g'.members), ((g'.ogIdx, 1), g'.members),
          ((g'.ogIdx, 2), g'.members)]).filter
      fun p => p.1.1 == g.ogIdx).map Prod.snd) = [g.members, g.members, g.members] := by
  induction l with
  | nil => simp at hg
  | cons h l ih =>
    rw [List.flatMap_cons, List.filter_append, List.map_append]
    simp only [List.map_cons, List.nodup_cons] at hl
    rcases List.mem_cons.mp hg with rfl | hg2
    · have hhead : (([((g.ogIdx, 0), g.members), ((g.ogIdx, 1), g.members),
          ((g.ogIdx, 2), g.members)]).filter fun p => p.1.1 == g.ogIdx) =
          [((g.ogIdx, 0), g.members), ((g.ogIdx, 1), g.members), ((g.ogIdx, 2), g.members)] := by
        simp [List.filter_cons]
      have htail : ((l.flatMap fun g' =>
          [((g'.ogIdx, 0), g'.members), ((g'.ogIdx, 1), g'.members),
            ((g'.ogIdx, 2), g'.members)]).filter fun p => p.1.1 == g.ogIdx) = [] := by
        rw [List.filter_eq_nil_iff]
        intro p hp
        obtain ⟨g', hg', hpg'⟩ := List.mem_flatMap.mp hp
        have h2 : p.1.1 = g'.ogIdx := by
          simp only [List.mem_cons, List.not_mem_nil, or_false] at hpg'
          rcases hpg' with rfl | rfl | rfl <;> rfl
        have hne : g'.ogIdx ≠ g.ogIdx := by
          intro he
          exact hl.1 (he ▸ List.mem_map_of_mem OG.ogIdx hg')
        simp [h2, hne]
      rw [hhead, htail]
      rfl
    · have hne : h.ogIdx ≠ g.ogIdx := by
        intro he
        exact hl.1 (he ▸ List.mem_map_of_mem OG.ogIdx hg2)
      have hhead : (([((h.ogIdx, 0), h.members), ((h.ogIdx, 1), h.members),
          ((h.ogIdx, 2), h.members)]).filter fun p => p.1.1 == g.ogIdx) = [] := by
        simp [List.filter_cons, hne]
      rw [hhead]
      simp only [List.map_nil, List.nil_append]
      exact ih hl.2 hg2

lemma enumFrom_map_fst_add_one {α : Type} :
    ∀ (n : ℕ) (l : List α),
      (l.enumFrom n).map (fun p => p.1 + 1) = List.range' (n + 1) l.length := by
  intro n l
  induction l generalizing n with
  | nil => rfl
  | cons a l ih =>
    rw [List.enumFrom_cons, List.map_cons, List.length_cons, List.range'_succ, ih]

lemma runScheduler_map_ogIdx {α : Type} (sep : α → α → ℚ) (hsep : ∀ c, sep c c = 0)
    (ts : List (SchedTarget α)) (htok : (ts.map SchedTarget.token).Nodup) :
    (runScheduler sep ts).map OG.ogIdx = List.range' 1 ts.length := by
  rw [runScheduler_closed sep hsep ts htok, List.map_map]
  exact enumFrom_map_fst_add_one 0 ts

/-- C8.  Every logical group closed by the scheduler is persisted three
times — the group itself with token suffix 0 plus `nrepeats = 2` further
copies with suffixes 1 and 2, all with the group's content; the tokens are
the pairs (group index, copy suffix) with 1-based monotonically increasing
group indices, and no token is ever reused within a run. -/
theorem persisted_copies_and_distinct_tokens
    (α : Type) (sep : α → α → ℚ) (hsep : ∀ c, sep c c = 0)
    (ts : List (SchedTarget α)) (htok : (ts.map SchedTarget.token).Nodup) :
    ((persistedOGs sep ts).map Prod.fst).Nodup ∧
    (runScheduler sep ts).map OG.ogIdx = List.range' 1 ts.length ∧
    (∀ g ∈ runScheduler sep ts,
      ((persistedOGs sep ts).filter fun p => p.1.1 == g.ogIdx).map Prod.snd =
        [g.members, g.members, g.members]) := by
  have hidx := runScheduler_map_ogIdx sep hsep ts htok
  have hnodupidx : ((runScheduler sep ts).map OG.ogIdx).Nodup := by
    rw [hidx]
    apply List.nodup_range'
    norm_num
  refine ⟨?_, hidx, ?_⟩
  · rw [persistedOGs_eq, tokens_flatMap]
    exact nodup_tokens_flatMap _ hnodupidx
  · intro g hg
    rw [persistedOGs_eq]
    exact filter_tokens_flatMap _ hnodupidx g hg

/-- C8 (witness): the three-target scenario. -/
theorem persisted_copies_and_distinct_tokens_witness :
    ((persistedOGs raSep scenarioTargets).map Prod.fst).Nodup ∧
    (runScheduler raSep scenarioTargets).map OG.ogIdx =
      List.range' 1 scenarioTargets.length ∧
    (∀ g ∈ runScheduler raSep scenarioTargets,
      ((persistedOGs raSep scenarioTargets).filter fun p => p.1.1 == g.ogIdx).map
        Prod.snd = [g.members, g.members, g.members]) :=
  persisted_copies_and_distinct_tokens ℚ raSep (fun c => by simp [raSep])
    scenarioTargets (by decide)

/-! ## Claim C9: monotonicity of the selector -/

lemma exposure_time_val_mono (i j : ℕ) (hij : i ≤ j) (hj : j ≤ 12) :
    exposure_time_val i ≤ exposure_time_val j := by
  have h : ∀ a b : Fin 13, a.1 ≤ b.1 → exposure_time_val a.1 ≤ exposure_time_val b.1 := by
    decide
  exact h ⟨i, by omega⟩ ⟨j, by omega⟩ hij

/-- C9.  The Instrument Configuration Selector is monotone: a fainter
magnitude never receives a shorter exposure bucket.  The ideal exposure
grows with magnitude, clamping preserves order, the count of buckets
exceeding it shrinks, so the selected index and the ascending bucket table
yield a non-decreasing exposure. -/
theorem selector_monotone (m1 m2 : ℝ) (i1 i2 : ℕ) (hm : m1 < m2)
    (h1 : exposure_time_index m1 i1) (h2 : exposure_time_index m2 i2) :
    exposure_time_val i1 ≤ exposure_time_val i2 := by
  obtain ⟨hb2, hb2'⟩ := exposure_time_index_bounds m2 i2 h2
  obtain ⟨e1, ⟨j1, hj1, hje1⟩, rfl⟩ := h1
  obtain ⟨e2, ⟨j2, hj2, hje2⟩, rfl⟩ := h2
  rw [ideal_exptime] at hj1 hj2
  have hj : j1 ≤ j2 := by
    rw [hj1, hj2]
    have ha : (24.5 - m2) / 2.5 ≤ (24.5 - m1) / 2.5 :=
      (div_le_div_iff_of_pos_right (by norm_num : (0 : ℝ) < 2.5)).mpr (by linarith)
    have hp2 : (0 : ℝ) < (10 : ℝ) ^ ((24.5 - m2) / 2.5) :=
      Real.rpow_pos_of_pos (by norm_num) _
    have hle : (10 : ℝ) ^ ((24.5 - m2) / 2.5) ≤ (10 : ℝ) ^ ((24.5 - m1) / 2.5) :=
      (Real.rpow_le_rpow_left_iff (by norm_num : (1 : ℝ) < 10)).mpr ha
    have hsq : ((10 : ℝ) ^ ((24.5 - m2) / 2.5)) ^ 2 ≤
        ((10 : ℝ) ^ ((24.5 - m1) / 2.5)) ^ 2 :=
      pow_le_pow_left₀ (le_of_lt hp2) hle 2
    exact div_le_div_of_nonneg_left (by norm_num) (by positivity) hsq
  have he : e1 ≤ e2 := by
    rw [hje1, hje2]
    exact min_le_min (le_refl _) (max_le_max (le_refl _) hj)
  have hsum := indicator_sum_anti e1 e2 he IC_exptimes
  have hlen1 := indicator_sum_le_length e1 IC_exptimes
  have hlen2 := indicator_sum_le_length e2 IC_exptimes
  exact exposure_time_val_mono _ _ (by omega) hb2'

/-- C9 (witness): magnitudes 24.5 (index 7, 340 s) and 27 (index 12,
500 s). -/
theorem selector_monotone_witness :
    (24.5 : ℝ) < 27 ∧ exposure_time_val 7 ≤ exposure_time_val 12 :=
  ⟨by norm_num,
   selector_monotone 24.5 27 7 12 (by norm_num) exposure_time_index_24p5
     exposure_time_index_27⟩

/-! ## Claim C10: totality and range of the selector -/

/-- C10.  For every (finite) real magnitude the selector is total and its
index lies in `[1, 12]`: it never selects index 0 and never runs past the
13-entry bucket table, so the selected exposure is always between 80 s
and 500 s and is never the first bucket value of 40 s. -/
theorem selector_total_and_in_range (mag : ℝ) :
    (∃ idx, exposure_time_index mag idx) ∧
    (∀ idx, exposure_time_index mag idx →
      1 ≤ idx ∧ idx ≤ 12 ∧ 80 ≤ exposure_time_val idx ∧
        exposure_time_val idx ≤ 500 ∧ exposure_time_val idx ≠ 40) := by
  constructor
  · exact ⟨_, ⟨_, ⟨_, rfl, rfl⟩, rfl⟩⟩
  · intro idx h
    obtain ⟨hb, hb2⟩ := exposure_time_index_bounds mag idx h
    have hval : ∀ a : Fin 13, 1 ≤ a.1 →
        80 ≤ exposure_time_val a.1 ∧ exposure_time_val a.1 ≤ 500 ∧
          exposure_time_val a.1 ≠ 40 := by decide
    have := hval ⟨idx, by omega⟩ hb
    exact ⟨hb, hb2, this.1, this.2.1, this.2.2⟩

/-- C10 (witness): magnitude 24.5, index 7, bucket 340 s. -/
theorem selector_total_and_in_range_witness :
    (∃ idx, exposure_time_index (24.5 : ℝ) idx) ∧
      (1 ≤ 7 ∧ 7 ≤ 12 ∧ 80 ≤ exposure_time_val 7 ∧ exposure_time_val 7 ≤ 500 ∧
        exposure_time_val 7 ≠ 40) :=
  ⟨(selector_total_and_in_range 24.5).1,
   (selector_total_and_in_range 24.5).2 7 exposure_time_index_24p5⟩
